import Mathlib

/-!
A shallow embedding of `jedi_language_server/notebook_utils.py`: the notebook
coordinate mapper, the edit splitter, the request rewriter
(`supports_notebooks`) and the workspace view (`WorkspaceWrapper`), together
with theorems checking the specification's claims about them.

Python strings are modelled as `List Char`; cell text is split into lines on
the line-feed character (the only separator this layer ever introduces, via
`"\n".join`).  Python `dict`s are modelled as association lists with
last-assignment-wins lookup.  A Python `KeyError` on an unreachable path is
modelled as an `Option` fallthrough; each such spot is marked by a comment.
-/

namespace NbUtils

/-- Lines of a text, keeping the line-feed terminators, as Python
`str.splitlines(keepends=True)` does for text whose only line separator is
the line feed.  `pygls.TextDocument.lines` is this applied to the source. -/
def splitLines : List Char → List (List Char)
  | [] => []
  | c :: cs =>
    if c = '\n' then ['\n'] :: splitLines cs
    else
      match splitLines cs with
      | [] => [[c]]
      | l :: ls => (c :: l) :: ls

/-- `pygls.workspace.TextDocument`: the fields this layer reads. -/
structure TextDocument where
  uri : String
  source : List Char
  version : Option Int
deriving DecidableEq, Repr

/-- `len(cell.lines)` for a cell text document. -/
def lineCount (td : TextDocument) : Nat :=
  (splitLines td.source).length

/-- Sum of the cells' line counts. -/
def sumLines (cells : List TextDocument) : Nat :=
  (cells.map lineCount).sum

/-- A cell reference inside a notebook document (`cell.document` is the
cell's URI). -/
structure NotebookCell where
  document : String
deriving DecidableEq, Repr

/-- `lsprotocol.types.NotebookDocument`: the fields this layer reads. -/
structure NotebookDocument where
  uri : String
  cells : List NotebookCell
deriving DecidableEq, Repr

/-- LSP `Position`: zero-based line and character. -/
structure Position where
  line : Nat
  character : Nat
deriving DecidableEq, Repr

/-- LSP `Range`: half-open, both endpoints.  (`end` is a Lean keyword, hence
the trailing underscore.) -/
structure Range where
  start : Position
  end_ : Position
deriving DecidableEq, Repr

/-- LSP `Location`. -/
structure Location where
  uri : String
  range : Range
deriving DecidableEq, Repr

/-- LSP `TextEdit` / `AnnotatedTextEdit` (one type: the annotation is
optional, and `attrs.evolve` keeps every field other than `range`). -/
structure TextEdit where
  range : Range
  newText : String
  annotationId : Option String
deriving DecidableEq, Repr

/-- LSP `OptionalVersionedTextDocumentIdentifier`.  The code always supplies
a concrete integer version when constructing one, and never reads the
version of an incoming identifier, so the version is a plain integer here. -/
structure OptionalVersionedTextDocumentIdentifier where
  uri : String
  version : Int
deriving DecidableEq, Repr

/-- LSP `TextDocumentEdit`. -/
structure TextDocumentEdit where
  text_document : OptionalVersionedTextDocumentIdentifier
  edits : List TextEdit
deriving DecidableEq, Repr

/-- `DocumentPosition` named tuple. -/
structure DocumentPosition where
  uri : String
  position : Position
deriving DecidableEq, Repr

/-- `DocumentTextEdit` named tuple. -/
structure DocumentTextEdit where
  uri : String
  text_edit : TextEdit
deriving DecidableEq, Repr

/-- Lookup in an association list built by successive `dict` assignments:
the last assignment to a key wins, as in a Python `dict`. -/
def dictLookup {α : Type} : List (String × α) → String → Option α
  | [], _ => none
  | (k, v) :: rest, u =>
    match dictLookup rest u with
    | some w => some w
    | none => if k = u then some v else none

/-- The loop body of `NotebookCoordinateMapper.__init__`: the per-cell
entries of `_cell_line_range_by_uri`, in cell order, starting at line
`start_line`.  Each entry is `(cell.uri, (start_line, end_line))` with
`end_line = start_line + len(cell.lines)`. -/
def cellRanges : List TextDocument → Nat → List (String × Nat × Nat)
  | [], _ => []
  | c :: rest, start_line =>
    (c.uri, start_line, start_line + lineCount c)
      :: cellRanges rest (start_line + lineCount c)

/-- `NotebookCoordinateMapper`: the notebook document and its cells in
notebook order.  The dictionaries built by `__init__` are pure functions of
`cells` and are exposed as the lookup functions below. -/
structure NotebookCoordinateMapper where
  document : NotebookDocument
  cells : List TextDocument
deriving DecidableEq, Repr

/-- `self._cell_line_range_by_uri[uri]`, as an `Option` (a missing key is a
`KeyError` in Python). -/
def NotebookCoordinateMapper.lineRangeOf
    (m : NotebookCoordinateMapper) (uri : String) : Option (Nat × Nat) :=
  dictLookup (cellRanges m.cells 0) uri

/-- `self._cell_by_uri[uri]`, as an `Option` (a missing key is a `KeyError`
in Python). -/
def NotebookCoordinateMapper.cellByUri
    (m : NotebookCoordinateMapper) (uri : String) : Option TextDocument :=
  dictLookup (m.cells.map fun c => (c.uri, c)) uri

/-- `"\n".join(...)`: join texts with a single line feed between
consecutive items. -/
def joinSources : List (List Char) → List Char
  | [] => []
  | [s] => s
  | s :: rest => s ++ '\n' :: joinSources rest

/-- `NotebookCoordinateMapper.source`: the concatenated notebook source. -/
def NotebookCoordinateMapper.source (m : NotebookCoordinateMapper) : List Char :=
  joinSources (m.cells.map TextDocument.source)

/-- `NotebookCoordinateMapper.notebook_position`.  `none` models the
`KeyError` raised when `cell_uri` is not a cell of this notebook. -/
def NotebookCoordinateMapper.notebook_position
    (m : NotebookCoordinateMapper) (cell_uri : String) (cell_position : Position) :
    Option Position :=
  (m.lineRangeOf cell_uri).map fun r =>
    { line := r.1 + cell_position.line, character := cell_position.character }

/-- `NotebookCoordinateMapper.notebook_range`: convert both endpoints. -/
def NotebookCoordinateMapper.notebook_range
    (m : NotebookCoordinateMapper) (cell_uri : String) (cell_range : Range) :
    Option Range :=
  match m.notebook_position cell_uri cell_range.start,
        m.notebook_position cell_uri cell_range.end_ with
  | some s, some e => some { start := s, end_ := e }
  | _, _ => none

/-- The `for cell in self._cells` scan of `cell_position`, parameterised by
the line-range lookup (which is built from the full cell list).  The `none`
branch of the lookup is unreachable in the source: every scanned cell's URI
is a key of `_cell_line_range_by_uri`. -/
def cellPositionScan (lookup : String → Option (Nat × Nat)) :
    List TextDocument → Position → Option DocumentPosition
  | [], _ => none
  | c :: rest, np =>
    match lookup c.uri with
    | some r =>
      if r.1 ≤ np.line ∧ np.line < r.2 then
        some { uri := c.uri,
               position := { line := np.line - r.1, character := np.character } }
      else cellPositionScan lookup rest np
    | none => cellPositionScan lookup rest np

/-- `NotebookCoordinateMapper.cell_position`. -/
def NotebookCoordinateMapper.cell_position
    (m : NotebookCoordinateMapper) (notebook_position : Position) :
    Option DocumentPosition :=
  cellPositionScan m.lineRangeOf m.cells notebook_position

/-- `NotebookCoordinateMapper.cell_range`. -/
def NotebookCoordinateMapper.cell_range
    (m : NotebookCoordinateMapper) (notebook_range : Range) : Option Location :=
  match m.cell_position notebook_range.start with
  | none => none
  | some s =>
    match m.cell_position notebook_range.end_ with
    | none => none
    | some e =>
      if s.uri ≠ e.uri then none
      else some { uri := s.uri, range := { start := s.position, end_ := e.position } }

/-- `NotebookCoordinateMapper.cell_location`. -/
def NotebookCoordinateMapper.cell_location
    (m : NotebookCoordinateMapper) (notebook_location : Location) : Option Location :=
  if notebook_location.uri ≠ m.document.uri then none
  else m.cell_range notebook_location.range

/-- `NotebookCoordinateMapper.cell_text_edit`: `attrs.evolve` replaces only
the range, keeping the replacement text and any annotation. -/
def NotebookCoordinateMapper.cell_text_edit
    (m : NotebookCoordinateMapper) (text_edit : TextEdit) : Option DocumentTextEdit :=
  (m.cell_range text_edit.range).map fun location =>
    { uri := location.uri, text_edit := { text_edit with range := location.range } }

/-- One `defaultdict(list)` insertion: append the edit to its key's group,
creating the group at the end on first sight (Python dicts preserve
insertion order). -/
def groupInsert (acc : List (String × List TextEdit)) (u : String) (e : TextEdit) :
    List (String × List TextEdit) :=
  match acc with
  | [] => [(u, [e])]
  | (k, es) :: rest =>
    if k = u then (k, es ++ [e]) :: rest
    else (k, es) :: groupInsert rest u e

/-- The grouping loop of `cell_text_document_edits`: surviving converted
edits grouped by destination cell URI. -/
def groupEdits (pairs : List DocumentTextEdit) : List (String × List TextEdit) :=
  pairs.foldl (fun acc p => groupInsert acc p.uri p.text_edit) []

/-- `0 if cell.version is None else cell.version`. -/
def versionOrZero (cell : TextDocument) : Int :=
  match cell.version with
  | none => 0
  | some v => v

/-- `NotebookCoordinateMapper.cell_text_document_edits`.  The `_cell_by_uri`
lookup of a group key cannot fail in the source (every key comes from a
scanned cell's URI); a failed lookup — a `KeyError` there — is modelled by
dropping the group. -/
def NotebookCoordinateMapper.cell_text_document_edits
    (m : NotebookCoordinateMapper) (text_document_edit : TextDocumentEdit) :
    List TextDocumentEdit :=
  if text_document_edit.text_document.uri ≠ m.document.uri then []
  else
    (groupEdits (text_document_edit.edits.filterMap m.cell_text_edit)).filterMap
      fun g =>
        (m.cellByUri g.1).map fun cell =>
          { text_document := { uri := cell.uri, version := versionOrZero cell },
            edits := g.2 }

/-- `pygls.workspace.Workspace`: the state this layer reads — the open
notebook documents and the text documents by URI (both Python dicts). -/
structure Workspace where
  notebook_documents : List NotebookDocument
  text_documents : List (String × TextDocument)
deriving DecidableEq, Repr

/-- Modelled from the spec: the external collaborator
`Workspace.get_notebook_document(notebook_uri=..., cell_uri=...)` of §6 —
by notebook URI, the open notebook with that URI; by cell URI, the open
notebook one of whose cells has that document URI; `none` otherwise. -/
def get_notebook_document (w : Workspace)
    (notebook_uri : Option String) (cell_uri : Option String) :
    Option NotebookDocument :=
  match notebook_uri with
  | some nu => w.notebook_documents.find? fun nb => nb.uri = nu
  | none =>
    match cell_uri with
    | some cu =>
      w.notebook_documents.find? fun nb => nb.cells.any fun c => c.document = cu
    | none => none

/-- `notebook_coordinate_mapper`: build a mapper for the notebook resolved
from the workspace, collecting its cells' text documents.  A missing cell
document is a `KeyError` in the source; it is modelled as `none`. -/
def notebook_coordinate_mapper (w : Workspace)
    (notebook_uri : Option String) (cell_uri : Option String) :
    Option NotebookCoordinateMapper :=
  match get_notebook_document w notebook_uri cell_uri with
  | none => none
  | some nd =>
    match nd.cells.mapM (fun cell => dictLookup w.text_documents cell.document) with
    | none => none
    | some cells => some { document := nd, cells := cells }

/-- The per-location body of the loop in `text_document_or_cell_locations`:
replace a location by its cell location when its URI is an open notebook's
URI and the conversion succeeds; otherwise keep it unchanged. -/
def convertLocation (w : Workspace) (location : Location) : Location :=
  match notebook_coordinate_mapper w (some location.uri) none with
  | none => location
  | some mapper =>
    match mapper.cell_location location with
    | none => location
    | some cell_location => cell_location

/-- `text_document_or_cell_locations`. -/
def text_document_or_cell_locations (w : Workspace)
    (locations : Option (List Location)) : Option (List Location) :=
  match locations with
  | none => none
  | some locs =>
    let results := locs.map (convertLocation w)
    if results.isEmpty then none else some results

/-- Underlying `Workspace.get_text_document` (external collaborator): the
stored text document for the URI. -/
def workspace_get_text_document (w : Workspace) (doc_uri : String) :
    Option TextDocument :=
  dictLookup w.text_documents doc_uri

/-- `WorkspaceWrapper.get_text_document`: when `doc_uri` is a cell of an
open notebook, a synthesized document carrying the notebook's URI and the
concatenated source (a fresh `TextDocument` has no version); otherwise the
underlying workspace's retrieval, unchanged. -/
def wrapper_get_text_document (w : Workspace) (doc_uri : String) :
    Option TextDocument :=
  match notebook_coordinate_mapper w none (some doc_uri) with
  | none => workspace_get_text_document w doc_uri
  | some notebook =>
    some { uri := notebook.document.uri, source := notebook.source, version := none }

/-- The parameters a notebook-supported request carries: the document URI
and, depending on the request type, a position and/or a range
(`getattr(params, "position", None)` / `getattr(params, "range", None)`). -/
structure Params where
  text_document_uri : String
  position : Option Position
  range : Option Range
deriving DecidableEq, Repr

/-- The result shapes `supports_notebooks.wrapped` distinguishes: a list of
locations, a hover (contents plus optional range), any other value, or a
Python `None`. -/
inductive LspResult where
  | locations : List Location → LspResult
  | hover : String → Option Range → LspResult
  | other : LspResult
  | null : LspResult
deriving DecidableEq, Repr

/-- The server as the wrapped handler sees it: the workspace state, plus
whether the view was substituted by `ServerWrapper`/`WorkspaceWrapper`
(which overrides only `get_text_document`). -/
structure ServerView where
  workspace : Workspace
  substituted : Bool
deriving DecidableEq, Repr

/-- `get_text_document` through the server view: the wrapper's override
when the view was substituted, the underlying retrieval otherwise. -/
def ServerView.get_text_document (s : ServerView) (doc_uri : String) :
    Option TextDocument :=
  if s.substituted then wrapper_get_text_document s.workspace doc_uri
  else workspace_get_text_document s.workspace doc_uri

/-- The `position` rewriting step of `wrapped`.  The inner `none` models the
`KeyError` of `notebook_position` on a URI that is not a cell of the
notebook, unreachable in the source. -/
def rewritePosition (nb : NotebookCoordinateMapper) (params : Params) : Params :=
  match params.position with
  | none => params
  | some pos =>
    match nb.notebook_position params.text_document_uri pos with
    | some np => { params with position := some np }
    | none => params

/-- The `range` rewriting step of `wrapped` (same unreachable-`KeyError`
remark as for `rewritePosition`). -/
def rewriteRange (nb : NotebookCoordinateMapper) (params : Params) : Params :=
  match params.range with
  | none => params
  | some r =>
    match nb.notebook_range params.text_document_uri r with
    | some nr => { params with range := some nr }
    | none => params

/-- `supports_notebooks.wrapped`: rewrite the request into notebook space
when its URI is a cell of an open notebook, substitute the server view,
invoke the handler, and post-process the result (a non-empty location list
through `text_document_or_cell_locations`; a hover range through
`cell_range`, guarded on the queried cell). -/
def wrapped (f : ServerView → Params → LspResult)
    (server0 : ServerView) (params0 : Params) : LspResult :=
  let serverParams : ServerView × Params :=
    match notebook_coordinate_mapper server0.workspace none (some params0.text_document_uri) with
    | none => (server0, params0)
    | some notebook =>
      ({ workspace := server0.workspace, substituted := true },
       rewriteRange notebook (rewritePosition notebook params0))
  let server := serverParams.1
  let params := serverParams.2
  let result := f server params
  match result with
  | .locations (l :: ls) =>
    (match text_document_or_cell_locations server.workspace (some (l :: ls)) with
     | some converted => .locations converted
     | none => .null)
  | .hover contents (some r) =>
    (match notebook_coordinate_mapper server.workspace none (some params.text_document_uri) with
     | none => .hover contents (some r)
     | some notebook_mapper =>
       match notebook_mapper.cell_range r with
       | none => .hover contents (some r)
       | some location =>
         if location.uri ≠ params.text_document_uri then .hover contents (some r)
         else .hover contents (some location.range))
  | r => r

/-- Number of lines of a text, as `len(text.splitlines(True))`. -/
def countLines (s : List Char) : Nat :=
  (splitLines s).length

theorem lineCount_eq (td : TextDocument) : lineCount td = countLines td.source := rfl

theorem sumLines_cons (c : TextDocument) (cs : List TextDocument) :
    sumLines (c :: cs) = lineCount c + sumLines cs := by
  simp [sumLines]

theorem sumLines_append (a b : List TextDocument) :
    sumLines (a ++ b) = sumLines a + sumLines b := by
  simp [sumLines]

theorem splitLines_ne_nil (s : List Char) (h : s ≠ []) : splitLines s ≠ [] := by
  match s with
  | [] => exact absurd rfl h
  | c :: cs =>
    simp only [splitLines]
    split
    · simp
    · split <;> simp

theorem countLines_cons_newline (cs : List Char) :
    countLines ('\n' :: cs) = 1 + countLines cs := by
  simp [countLines, splitLines, Nat.add_comm]

theorem countLines_cons_of_ne (c : Char) (cs : List Char) (hc : c ≠ '\n')
    (hcs : cs ≠ []) : countLines (c :: cs) = countLines cs := by
  simp only [countLines, splitLines, if_neg hc]
  cases h : splitLines cs with
  | nil => exact absurd h (splitLines_ne_nil cs hcs)
  | cons l ls => simp

/-- One separator absorbed: joining a well-formed text (non-empty, not
line-feed-terminated) to more text through a line feed adds the line counts. -/
theorem countLines_append_newline (ys : List Char) :
    ∀ xs : List Char, xs ≠ [] → xs.getLast? ≠ some '\n' →
      countLines (xs ++ '\n' :: ys) = countLines xs + countLines ys := by
  intro xs
  induction xs with
  | nil => intro h _; exact absurd rfl h
  | cons c cs ih =>
    intro _ hlast
    cases cs with
    | nil =>
      have hc : c ≠ '\n' := by simpa using hlast
      simp [countLines, splitLines, hc]
      omega
    | cons d ds =>
      have hlast' : (d :: ds).getLast? ≠ some '\n' := by
        simpa [List.getLast?_cons_cons] using hlast
      have ihr := ih (by simp) hlast'
      by_cases hc : c = '\n'
      · subst hc
        rw [List.cons_append, countLines_cons_newline, countLines_cons_newline, ihr]
        omega
      · rw [List.cons_append,
          countLines_cons_of_ne c _ hc (by simp),
          countLines_cons_of_ne c _ hc (by simp), ihr]

/-- Joining well-formed cell texts with single line feeds adds the line
counts (every text except possibly the last must be non-empty and not end
in a line feed). -/
theorem countLines_joinSources :
    ∀ srcs : List (List Char),
      (∀ s ∈ srcs.dropLast, s ≠ [] ∧ s.getLast? ≠ some '\n') →
      countLines (joinSources srcs) = (srcs.map countLines).sum := by
  intro srcs
  induction srcs with
  | nil => intro _; simp [joinSources, countLines, splitLines]
  | cons s rest ih =>
    intro h
    cases rest with
    | nil => simp [joinSources]
    | cons r rs =>
      have hs : s ≠ [] ∧ s.getLast? ≠ some '\n' := h s (by simp [List.dropLast])
      have hrest := ih fun t ht => h t (by simp [List.dropLast]; right; exact ht)
      have hjoin : joinSources (s :: r :: rs) = s ++ '\n' :: joinSources (r :: rs) := rfl
      rw [hjoin, countLines_append_newline _ s hs.1 hs.2, hrest]
      simp

theorem dictLookup_eq_none {α : Type} (l : List (String × α)) (u : String)
    (h : u ∉ l.map Prod.fst) : dictLookup l u = none := by
  induction l with
  | nil => rfl
  | cons p rest ih =>
    obtain ⟨k, v⟩ := p
    simp only [List.map_cons, List.mem_cons] at h
    push_neg at h
    simp only [dictLookup, ih h.2]
    exact if_neg fun hk => h.1 hk.symm

theorem dictLookup_mem {α : Type} (l : List (String × α)) (u : String) (v : α)
    (h : dictLookup l u = some v) : (u, v) ∈ l := by
  induction l with
  | nil => simp [dictLookup] at h
  | cons p rest ih =>
    obtain ⟨k, w⟩ := p
    cases hr : dictLookup rest u with
    | some v' =>
      simp only [dictLookup, hr, Option.some.injEq] at h
      subst h
      exact List.mem_cons_of_mem _ (ih hr)
    | none =>
      simp only [dictLookup, hr] at h
      by_cases hk : k = u
      · rw [if_pos hk] at h
        have hv : w = v := by simpa using h
        subst hk; subst hv
        exact List.mem_cons_self _ _
      · rw [if_neg hk] at h
        simp at h

theorem dictLookup_of_mem_nodup {α : Type} (l : List (String × α)) (u : String) (v : α)
    (hmem : (u, v) ∈ l) (hnd : (l.map Prod.fst).Nodup) : dictLookup l u = some v := by
  induction l with
  | nil => simp at hmem
  | cons p rest ih =>
    obtain ⟨k, w⟩ := p
    simp only [List.map_cons, List.nodup_cons] at hnd
    rcases List.mem_cons.mp hmem with h | h
    · injection h with h1 h2
      subst h1; subst h2
      have : dictLookup rest u = none :=
        dictLookup_eq_none rest u hnd.1
      simp [dictLookup, this]
    · have := ih h hnd.2
      simp [dictLookup, this]

theorem cellRanges_append (a b : List TextDocument) :
    ∀ s : Nat, cellRanges (a ++ b) s = cellRanges a s ++ cellRanges b (s + sumLines a) := by
  induction a with
  | nil => intro s; simp [cellRanges, sumLines]
  | cons c rest ih =>
    intro s
    simp [cellRanges, ih, sumLines_cons, Nat.add_assoc]

theorem cellRanges_keys (cs : List TextDocument) :
    ∀ s : Nat, (cellRanges cs s).map Prod.fst = cs.map TextDocument.uri := by
  induction cs with
  | nil => intro s; rfl
  | cons c rest ih => intro s; simp [cellRanges, ih]

/-- Contiguity: the `i`-th entry of the line-range index starts at the sum
of the line counts of the cells before it and ends after its own lines. -/
theorem cellRanges_get (cs : List TextDocument) :
    ∀ (s i : Nat) (h : i < cs.length),
      (cellRanges cs s)[i]? =
        some ((cs.get ⟨i, h⟩).uri,
          s + sumLines (cs.take i),
          s + sumLines (cs.take i) + lineCount (cs.get ⟨i, h⟩)) := by
  induction cs with
  | nil => intro s i h; simp at h
  | cons c rest ih =>
    intro s i h
    cases i with
    | zero => simp [cellRanges, sumLines]
    | succ i =>
      have h' : i < rest.length := by simpa using h
      have := ih (s + lineCount c) i h'
      simp only [cellRanges, List.getElem?_cons_succ, this, List.get_cons_succ,
        List.take_succ_cons, sumLines_cons]
      simp [Nat.add_assoc]

/-- The union of the index's line ranges is exactly `[s, s + total)`. -/
theorem cellRanges_covers (cs : List TextDocument) :
    ∀ s l : Nat,
      (∃ r ∈ cellRanges cs s, r.2.1 ≤ l ∧ l < r.2.2) ↔ s ≤ l ∧ l < s + sumLines cs := by
  induction cs with
  | nil => intro s l; simp [cellRanges, sumLines]
  | cons c rest ih =>
    intro s l
    constructor
    · rintro ⟨r, hr, h1, h2⟩
      rcases List.mem_cons.mp hr with h | h
      · subst h
        simp only [sumLines_cons] at *
        constructor
        · exact h1
        · omega
      · have := (ih (s + lineCount c) l).mp ⟨r, h, h1, h2⟩
        simp only [sumLines_cons]
        omega
    · intro hl
      by_cases hcase : l < s + lineCount c
      · exact ⟨(c.uri, s, s + lineCount c), by simp [cellRanges], hl.1, hcase⟩
      · have hl' : s + lineCount c ≤ l ∧ l < s + lineCount c + sumLines rest := by
          simp only [sumLines_cons] at hl
          omega
        obtain ⟨r, hr, h⟩ := (ih (s + lineCount c) l).mpr hl'
        exact ⟨r, List.mem_cons_of_mem _ hr, h⟩

theorem cellPositionScan_none (lookup : String → Option (Nat × Nat)) (t ch : Nat)
    (h : ∀ u r, lookup u = some r → ¬(r.1 ≤ t ∧ t < r.2)) :
    ∀ cs : List TextDocument, cellPositionScan lookup cs ⟨t, ch⟩ = none := by
  intro cs
  induction cs with
  | nil => rfl
  | cons c rest ih =>
    cases hl : lookup c.uri with
    | none => simp only [cellPositionScan, hl]; exact ih
    | some r =>
      simp only [cellPositionScan, hl]
      rw [if_neg (h c.uri r hl)]
      exact ih

theorem cellPositionScan_hit (lookup : String → Option (Nat × Nat)) (t ch : Nat) :
    ∀ (l1 : List TextDocument) (c : TextDocument) (l2 : List TextDocument) (a e : Nat),
      (∀ b ∈ l1, ∀ r, lookup b.uri = some r → ¬(r.1 ≤ t ∧ t < r.2)) →
      lookup c.uri = some (a, e) → a ≤ t → t < e →
      cellPositionScan lookup (l1 ++ c :: l2) ⟨t, ch⟩ =
        some { uri := c.uri, position := { line := t - a, character := ch } } := by
  intro l1
  induction l1 with
  | nil =>
    intro c l2 a e _ hc h1 h2
    simp only [List.nil_append, cellPositionScan, hc]
    rw [if_pos ⟨h1, h2⟩]
  | cons b rest ih =>
    intro c l2 a e hskip hc h1 h2
    have htail : ∀ b' ∈ rest, ∀ r, lookup b'.uri = some r → ¬(r.1 ≤ t ∧ t < r.2) :=
      fun b' hb' => hskip b' (List.mem_cons_of_mem _ hb')
    cases hl : lookup b.uri with
    | none =>
      simp only [List.cons_append, cellPositionScan, hl]
      exact ih c l2 a e htail hc h1 h2
    | some r =>
      simp only [List.cons_append, cellPositionScan, hl]
      rw [if_neg (hskip b (List.mem_cons_self _ _) r hl)]
      exact ih c l2 a e htail hc h1 h2

/-- The line range looked up for a cell of the notebook, located by a split
of the cell list (cell URIs assumed pairwise distinct, as the protocol
guarantees for notebook cells). -/
theorem lineRangeOf_split (m : NotebookCoordinateMapper)
    (hnd : (m.cells.map TextDocument.uri).Nodup)
    (l1 : List TextDocument) (c : TextDocument) (l2 : List TextDocument)
    (hsplit : m.cells = l1 ++ c :: l2) :
    m.lineRangeOf c.uri = some (sumLines l1, sumLines l1 + lineCount c) := by
  have hmem : (c.uri, sumLines l1, sumLines l1 + lineCount c) ∈ cellRanges m.cells 0 := by
    rw [hsplit, cellRanges_append]
    simp [cellRanges]
  have hkeys : ((cellRanges m.cells 0).map Prod.fst).Nodup := by
    rw [cellRanges_keys]; exact hnd
  exact dictLookup_of_mem_nodup _ _ _ hmem hkeys

/-- C1: for every cell of the mapper's notebook and every position whose
line is inside that cell's line range, converting to notebook space with
`notebook_position` and back with `cell_position` yields exactly the same
cell URI, line and character. -/
theorem C1_round_trip (m : NotebookCoordinateMapper)
    (hnd : (m.cells.map TextDocument.uri).Nodup)
    (c : TextDocument) (hc : c ∈ m.cells) (p : Position)
    (hp : p.line < lineCount c) :
    (m.notebook_position c.uri p).bind m.cell_position =
      some { uri := c.uri, position := p } := by
  obtain ⟨pl, pch⟩ := p
  simp only at hp
  obtain ⟨l1, l2, hsplit⟩ := List.append_of_mem hc
  have hrange := lineRangeOf_split m hnd l1 c l2 hsplit
  have hnp : m.notebook_position c.uri ⟨pl, pch⟩ =
      some { line := sumLines l1 + pl, character := pch } := by
    simp [NotebookCoordinateMapper.notebook_position, hrange]
  rw [hnp]
  simp only [Option.some_bind]
  have hskip : ∀ b ∈ l1, ∀ r, m.lineRangeOf b.uri = some r →
      ¬(r.1 ≤ sumLines l1 + pl ∧ sumLines l1 + pl < r.2) := by
    intro b hb r hr
    obtain ⟨m1, m2, hbsplit⟩ := List.append_of_mem hb
    have hbr : m.lineRangeOf b.uri = some (sumLines m1, sumLines m1 + lineCount b) :=
      lineRangeOf_split m hnd m1 b (m2 ++ c :: l2) (by rw [hsplit, hbsplit]; simp)
    rw [hbr] at hr
    injection hr with hr'
    subst hr'
    have hle : sumLines m1 + lineCount b ≤ sumLines l1 := by
      rw [hbsplit, sumLines_append, sumLines_cons]
      omega
    rintro ⟨h1, h2⟩
    omega
  have hscan := cellPositionScan_hit m.lineRangeOf (sumLines l1 + pl) pch
    l1 c l2 (sumLines l1) (sumLines l1 + lineCount c) hskip hrange
    (by omega) (by omega)
  show cellPositionScan m.lineRangeOf m.cells _ = _
  rw [hsplit, hscan]
  simp

/-- Witness for C1 at a concrete two-cell notebook. -/
def exCellA : TextDocument :=
  { uri := "cell:a", source := ['x', '\n', 'y', '\n', 'z'], version := some 7 }

def exCellB : TextDocument :=
  { uri := "cell:b", source := ['u', '\n', 'v'], version := none }

def exNotebookDoc : NotebookDocument :=
  { uri := "nb:doc", cells := [⟨"cell:a"⟩, ⟨"cell:b"⟩] }

def exMapper : NotebookCoordinateMapper :=
  { document := exNotebookDoc, cells := [exCellA, exCellB] }

theorem C1_round_trip_witness :
    (exMapper.notebook_position "cell:b" ⟨1, 0⟩).bind exMapper.cell_position =
      some { uri := "cell:b", position := ⟨1, 0⟩ } :=
  C1_round_trip exMapper (by decide) exCellB (by decide) ⟨1, 0⟩ (by decide)

/-- C5: for every mapper, the per-cell line ranges are the contiguous
half-open intervals laid out in cell order — the `i`-th range starts at the
sum of the line counts of cells `0..i-1` and ends after cell `i`'s lines —
and their union is exactly `[0, totalLines)`. -/
theorem C5_contiguity (m : NotebookCoordinateMapper) :
    (∀ (i : Nat) (h : i < m.cells.length),
      (cellRanges m.cells 0)[i]? =
        some ((m.cells.get ⟨i, h⟩).uri, sumLines (m.cells.take i),
          sumLines (m.cells.take i) + lineCount (m.cells.get ⟨i, h⟩)))
    ∧ ∀ l : Nat,
        (∃ r ∈ cellRanges m.cells 0, r.2.1 ≤ l ∧ l < r.2.2) ↔ l < sumLines m.cells := by
  constructor
  · intro i h
    have := cellRanges_get m.cells 0 i h
    simpa using this
  · intro l
    have := cellRanges_covers m.cells 0 l
    simpa using this

theorem C5_contiguity_witness :
    (0 : Nat) < exMapper.cells.length ∧
      (cellRanges exMapper.cells 0)[0]? = some ("cell:a", 0, 3) :=
  ⟨by decide, (C5_contiguity exMapper).1 0 (by decide)⟩

/-- C4: `cell_range` is `none` exactly on ranges that do not land in a
single cell — an endpoint outside every cell's line range (where
`cell_position` is `none`), or endpoints resolving to different cell URIs —
and otherwise returns the common cell URI with both converted endpoints. -/
theorem C4_cell_range (m : NotebookCoordinateMapper) (r : Range) :
    (m.cell_position r.start = none → m.cell_range r = none)
    ∧ (m.cell_position r.end_ = none → m.cell_range r = none)
    ∧ (∀ s e : DocumentPosition, m.cell_position r.start = some s →
        m.cell_position r.end_ = some e → s.uri ≠ e.uri → m.cell_range r = none)
    ∧ (∀ s e : DocumentPosition, m.cell_position r.start = some s →
        m.cell_position r.end_ = some e → s.uri = e.uri →
        m.cell_range r =
          some { uri := s.uri, range := { start := s.position, end_ := e.position } })
    ∧ (∀ np : Position,
        (∀ q ∈ cellRanges m.cells 0, ¬(q.2.1 ≤ np.line ∧ np.line < q.2.2)) →
        m.cell_position np = none) := by
  refine ⟨?_, ?_, ?_, ?_, ?_⟩
  · intro h
    simp [NotebookCoordinateMapper.cell_range, h]
  · intro h
    cases hs : m.cell_position r.start with
    | none => simp [NotebookCoordinateMapper.cell_range, hs]
    | some s => simp [NotebookCoordinateMapper.cell_range, hs, h]
  · intro s e hs he hne
    simp [NotebookCoordinateMapper.cell_range, hs, he, hne]
  · intro s e hs he heq
    simp [NotebookCoordinateMapper.cell_range, hs, he, heq]
  · intro np hout
    obtain ⟨l, ch⟩ := np
    apply cellPositionScan_none
    intro u q hq
    exact hout (u, q) (dictLookup_mem _ _ _ hq)

theorem C4_cell_range_witness :
    exMapper.cell_range { start := ⟨1, 0⟩, end_ := ⟨4, 0⟩ } = none :=
  (C4_cell_range exMapper { start := ⟨1, 0⟩, end_ := ⟨4, 0⟩ }).2.2.1
    ⟨"cell:a", ⟨1, 0⟩⟩ ⟨"cell:b", ⟨1, 0⟩⟩ (by decide) (by decide) (by decide)

/-- C8 (amended): the concatenated source is the line-feed join of the cell
texts, and its line count equals the sum of the per-cell line counts
provided every cell except possibly the last has non-empty text not ending
in a line break. -/
theorem C8_source_line_count (m : NotebookCoordinateMapper)
    (h : ∀ s ∈ (m.cells.map TextDocument.source).dropLast,
        s ≠ [] ∧ s.getLast? ≠ some '\n') :
    m.source = joinSources (m.cells.map TextDocument.source)
    ∧ countLines m.source = sumLines m.cells := by
  refine ⟨rfl, ?_⟩
  rw [NotebookCoordinateMapper.source, countLines_joinSources _ h, List.map_map]
  rfl

theorem C8_source_line_count_witness :
    countLines exMapper.source = sumLines exMapper.cells :=
  (C8_source_line_count exMapper (by decide)).2

/-- C8 counterexample: a first cell whose text ends in a line feed breaks
the equality — the join inserts a separator line feed after the cell's own
terminating line feed, creating an extra (empty) line. -/
def exCellNl : TextDocument :=
  { uri := "cell:n", source := ['a', '\n'], version := none }

def exCellPlain : TextDocument :=
  { uri := "cell:p", source := ['b'], version := none }

def exMapperNl : NotebookCoordinateMapper :=
  { document := { uri := "nb:n", cells := [⟨"cell:n"⟩, ⟨"cell:p"⟩] },
    cells := [exCellNl, exCellPlain] }

theorem C8_counterexample :
    countLines exMapperNl.source = 3 ∧ sumLines exMapperNl.cells = 2 := by
  decide

/-- C10: `text_document_or_cell_locations` never returns an empty list —
`none` in, `none` out; an empty list in, `none` out; and any returned list
is non-empty. -/
theorem C10_never_empty (w : Workspace) :
    text_document_or_cell_locations w none = none
    ∧ text_document_or_cell_locations w (some []) = none
    ∧ ∀ (ls res : List Location),
        text_document_or_cell_locations w (some ls) = some res → res ≠ [] := by
  refine ⟨rfl, rfl, ?_⟩
  intro ls res h
  cases ls with
  | nil => simp [text_document_or_cell_locations] at h
  | cons l ls' =>
    have h' : some (convertLocation w l :: ls'.map (convertLocation w)) = some res := by
      simpa [text_document_or_cell_locations] using h
    cases h'
    simp

theorem C10_never_empty_witness :
    text_document_or_cell_locations ⟨[], []⟩
        (some ([⟨"file:u", ⟨⟨0, 0⟩, ⟨0, 0⟩⟩⟩] : List Location)) =
      some [⟨"file:u", ⟨⟨0, 0⟩, ⟨0, 0⟩⟩⟩]
    ∧ ([⟨"file:u", ⟨⟨0, 0⟩, ⟨0, 0⟩⟩⟩] : List Location) ≠ [] :=
  ⟨by decide,
    (C10_never_empty ⟨[], []⟩).2.2 [⟨"file:u", ⟨⟨0, 0⟩, ⟨0, 0⟩⟩⟩]
      [⟨"file:u", ⟨⟨0, 0⟩, ⟨0, 0⟩⟩⟩] (by decide)⟩

/-- A workspace holding the two-cell example notebook and its cell
documents. -/
def exW : Workspace :=
  { notebook_documents := [exNotebookDoc],
    text_documents := [("cell:a", exCellA), ("cell:b", exCellB)] }

/-- A location at the notebook URI spanning two cells: its conversion to a
cell location fails. -/
def exCrossLoc : Location :=
  { uri := "nb:doc", range := { start := ⟨1, 0⟩, end_ := ⟨4, 0⟩ } }

/-- A location at the notebook URI inside cell `cell:b`. -/
def exInLoc : Location :=
  { uri := "nb:doc", range := { start := ⟨3, 0⟩, end_ := ⟨4, 1⟩ } }

/-- A location at a plain (non-notebook) document URI. -/
def exPlainLoc : Location :=
  { uri := "file:plain", range := { start := ⟨0, 0⟩, end_ := ⟨0, 2⟩ } }

/-- C3 counterexample: a location at an open notebook's URI whose
conversion fails (a cross-cell span) is NOT dropped — it is kept in the
returned list unchanged. -/
theorem C3_counterexample :
    notebook_coordinate_mapper exW (some exCrossLoc.uri) none = some exMapper
    ∧ exMapper.cell_location exCrossLoc = none
    ∧ text_document_or_cell_locations exW (some [exCrossLoc]) = some [exCrossLoc] := by
  decide

/-- C3 (amended): post-processing maps each location independently —
replaced by its cell location when its URI is an open notebook's URI and
the conversion succeeds, kept unchanged (not dropped) when the conversion
fails, and returned untouched when its URI is no open notebook's URI. -/
theorem C3_location_postprocessing (w : Workspace) (ls : List Location) (h : ls ≠ []) :
    text_document_or_cell_locations w (some ls) = some (ls.map (convertLocation w))
    ∧ (∀ loc : Location, notebook_coordinate_mapper w (some loc.uri) none = none →
        convertLocation w loc = loc)
    ∧ (∀ (loc : Location) (m' : NotebookCoordinateMapper),
        notebook_coordinate_mapper w (some loc.uri) none = some m' →
        m'.cell_location loc = none → convertLocation w loc = loc)
    ∧ (∀ (loc : Location) (m' : NotebookCoordinateMapper) (cl : Location),
        notebook_coordinate_mapper w (some loc.uri) none = some m' →
        m'.cell_location loc = some cl → convertLocation w loc = cl) := by
  refine ⟨?_, ?_, ?_, ?_⟩
  · cases ls with
    | nil => exact absurd rfl h
    | cons l ls' => simp [text_document_or_cell_locations]
  · intro loc hm
    simp [convertLocation, hm]
  · intro loc m' hm hcl
    simp [convertLocation, hm, hcl]
  · intro loc m' cl hm hcl
    simp [convertLocation, hm, hcl]

theorem C3_location_postprocessing_witness :
    text_document_or_cell_locations exW (some [exPlainLoc, exInLoc, exCrossLoc]) =
      some [exPlainLoc,
        { uri := "cell:b", range := { start := ⟨0, 0⟩, end_ := ⟨1, 1⟩ } },
        exCrossLoc] := by
  rw [(C3_location_postprocessing exW [exPlainLoc, exInLoc, exCrossLoc] (by decide)).1]
  decide

/-- C9 counterexample: the synthesized concatenated document is returned
when the requested URI is a CELL of an open notebook, not when it matches
the notebook's own identity; requesting the notebook's own URI falls
through to the underlying workspace. -/
theorem C9_counterexample :
    wrapper_get_text_document exW "cell:a" =
      some { uri := "nb:doc",
             source := ['x', '\n', 'y', '\n', 'z', '\n', 'u', '\n', 'v'],
             version := none }
    ∧ ("cell:a" : String) ≠ "nb:doc"
    ∧ wrapper_get_text_document exW "nb:doc" = none := by
  decide

/-- C9 (amended): document retrieval through the wrapper synthesizes a
document carrying the notebook's URI and the concatenated source exactly
when the requested URI is a cell of an open notebook, and forwards the
retrieval to the underlying workspace unchanged for every other URI. -/
theorem C9_get_text_document (w : Workspace) (u : String) :
    (∀ nb : NotebookCoordinateMapper,
      notebook_coordinate_mapper w none (some u) = some nb →
      wrapper_get_text_document w u =
        some { uri := nb.document.uri, source := nb.source, version := none })
    ∧ (notebook_coordinate_mapper w none (some u) = none →
      wrapper_get_text_document w u = workspace_get_text_document w u) := by
  constructor
  · intro nb h
    simp [wrapper_get_text_document, h]
  · intro h
    simp [wrapper_get_text_document, h]

theorem C9_get_text_document_witness :
    wrapper_get_text_document exW "cell:a" =
      some { uri := exMapper.document.uri, source := exMapper.source, version := none } :=
  (C9_get_text_document exW "cell:a").1 exMapper (by decide)

theorem rewritePosition_uri (nb : NotebookCoordinateMapper) (params : Params) :
    (rewritePosition nb params).text_document_uri = params.text_document_uri := by
  cases hp : params.position with
  | none => simp [rewritePosition, hp]
  | some pos =>
    cases hn : nb.notebook_position params.text_document_uri pos with
    | none => simp [rewritePosition, hp, hn]
    | some np => simp [rewritePosition, hp, hn]

theorem rewriteRange_uri (nb : NotebookCoordinateMapper) (params : Params) :
    (rewriteRange nb params).text_document_uri = params.text_document_uri := by
  cases hp : params.range with
  | none => simp [rewriteRange, hp]
  | some r =>
    cases hn : nb.notebook_range params.text_document_uri r with
    | none => simp [rewriteRange, hp, hn]
    | some nr => simp [rewriteRange, hp, hn]

/-- The example server view over `exW`, unsubstituted. -/
def exServer : ServerView := { workspace := exW, substituted := false }

/-- A request at a plain document URI that is no cell of any open
notebook. -/
def exParamsPlain : Params :=
  { text_document_uri := "file:plain", position := none, range := none }

/-- A handler returning a location inside the open notebook `nb:doc`. -/
def fNbLoc : ServerView → Params → LspResult :=
  fun _ _ => .locations [exInLoc]

/-- C7 counterexample: for a request whose URI is not a cell of any open
notebook, the result is NOT always returned verbatim — a non-empty location
list still goes through location post-processing, which here rewrites a
notebook-space location to its cell. -/
theorem C7_counterexample :
    notebook_coordinate_mapper exServer.workspace none (some exParamsPlain.text_document_uri) = none
    ∧ wrapped fNbLoc exServer exParamsPlain ≠ fNbLoc exServer exParamsPlain
    ∧ wrapped fNbLoc exServer exParamsPlain =
        .locations [{ uri := "cell:b", range := { start := ⟨0, 0⟩, end_ := ⟨1, 1⟩ } }] := by
  decide

/-- C7 (amended): when the request's URI is no cell of any open notebook,
the parameters are not rewritten and the handler is invoked with the
original server and parameters; every result except a non-empty `Location`
list is returned verbatim, while a non-empty `Location` list still passes
through location post-processing — which leaves it unchanged whenever no
contained URI is an open notebook's URI. -/
theorem C7_non_notebook_request (f : ServerView → Params → LspResult)
    (server : ServerView) (params : Params)
    (h : notebook_coordinate_mapper server.workspace none (some params.text_document_uri) = none) :
    (wrapped f server params =
      match f server params with
      | .locations (l :: ls) =>
        (match text_document_or_cell_locations server.workspace (some (l :: ls)) with
         | some converted => .locations converted
         | none => .null)
      | r => r)
    ∧ (∀ locs : List Location, f server params = .locations locs →
        (∀ l ∈ locs,
          notebook_coordinate_mapper server.workspace (some l.uri) none = none) →
        wrapped f server params = f server params) := by
  have hmain : wrapped f server params =
      match f server params with
      | .locations (l :: ls) =>
        (match text_document_or_cell_locations server.workspace (some (l :: ls)) with
         | some converted => .locations converted
         | none => .null)
      | r => r := by
    simp only [wrapped, h]
    cases hfr : f server params with
    | locations ls => cases ls <;> rfl
    | hover contents or => cases or <;> rfl
    | other => rfl
    | null => rfl
  refine ⟨hmain, ?_⟩
  intro locs hr hall
  rw [hmain, hr]
  cases locs with
  | nil => rfl
  | cons l ls =>
    have hid : ∀ x ∈ l :: ls, convertLocation server.workspace x = x := by
      intro x hx
      simp [convertLocation, hall x hx]
    have hconv : (l :: ls).map (convertLocation server.workspace) = l :: ls :=
      (List.map_congr_left hid).trans (List.map_id _)
    simp [text_document_or_cell_locations, hconv]

theorem C7_non_notebook_request_witness :
    wrapped (fun _ _ => LspResult.other) exServer exParamsPlain = LspResult.other :=
  (C7_non_notebook_request (fun _ _ => LspResult.other) exServer exParamsPlain
    (by decide)).1

/-- C6: for a hover result carrying a range on a request that originated
from a cell of an open notebook, the hover's range is rewritten to cell
space only when the conversion succeeds AND resolves to the originally
queried cell's URI; otherwise the hover is returned with its original
range unchanged. -/
theorem C6_hover_guard (f : ServerView → Params → LspResult)
    (server : ServerView) (params : Params) (nb : NotebookCoordinateMapper)
    (contents : String) (r : Range)
    (hnb : notebook_coordinate_mapper server.workspace none (some params.text_document_uri) =
      some nb)
    (hf : f { workspace := server.workspace, substituted := true }
        (rewriteRange nb (rewritePosition nb params)) = .hover contents (some r)) :
    (nb.cell_range r = none → wrapped f server params = .hover contents (some r))
    ∧ (∀ loc : Location, nb.cell_range r = some loc →
        loc.uri ≠ params.text_document_uri →
        wrapped f server params = .hover contents (some r))
    ∧ (∀ loc : Location, nb.cell_range r = some loc →
        loc.uri = params.text_document_uri →
        wrapped f server params = .hover contents (some loc.range)) := by
  have huri : (rewriteRange nb (rewritePosition nb params)).text_document_uri =
      params.text_document_uri := by
    rw [rewriteRange_uri, rewritePosition_uri]
  refine ⟨?_, ?_, ?_⟩
  · intro hcr
    simp only [wrapped, hnb, hf, huri, hcr]
  · intro loc hcr hne
    simp only [wrapped, hnb, hf, huri, hcr]
    rw [if_pos hne]
  · intro loc hcr heq
    simp only [wrapped, hnb, hf, huri, hcr]
    rw [if_neg (not_not_intro heq)]

/-- A request originating from cell `cell:a` of the example notebook. -/
def exParamsA : Params :=
  { text_document_uri := "cell:a", position := none, range := none }

theorem C6_hover_guard_witness :
    wrapped (fun _ _ => LspResult.hover "doc" (some ⟨⟨1, 0⟩, ⟨4, 0⟩⟩)) exServer exParamsA =
      LspResult.hover "doc" (some ⟨⟨1, 0⟩, ⟨4, 0⟩⟩) :=
  (C6_hover_guard (fun _ _ => LspResult.hover "doc" (some ⟨⟨1, 0⟩, ⟨4, 0⟩⟩))
    exServer exParamsA exMapper "doc" ⟨⟨1, 0⟩, ⟨4, 0⟩⟩ (by decide) rfl).1 (by decide)

/-- The keys of a list in first-encounter order, skipping keys already in
`seen`: the order in which a `dict` built by insertion first meets each
key. -/
def firstOccurrences (seen : List String) : List String → List String
  | [] => []
  | u :: rest =>
    if u ∈ seen then firstOccurrences seen rest
    else u :: firstOccurrences (u :: seen) rest

/-- The edits of `pairs` addressed to cell `k`, in their original order. -/
def groupValue (pairs : List DocumentTextEdit) (k : String) : List TextEdit :=
  (pairs.filter fun p => p.uri = k).map DocumentTextEdit.text_edit

/-- Extend an accumulated group by the later edits addressed to its key. -/
def extendGroup (pairs : List DocumentTextEdit) (g : String × List TextEdit) :
    String × List TextEdit :=
  (g.1, g.2 ++ groupValue pairs g.1)

/-- The finished group for key `k`. -/
def groupOf (pairs : List DocumentTextEdit) (k : String) : String × List TextEdit :=
  (k, groupValue pairs k)

theorem groupValue_cons_pos (p : DocumentTextEdit) (pairs : List DocumentTextEdit)
    (k : String) (h : p.uri = k) :
    groupValue (p :: pairs) k = p.text_edit :: groupValue pairs k := by
  simp [groupValue, List.filter_cons, h]

theorem groupValue_cons_neg (p : DocumentTextEdit) (pairs : List DocumentTextEdit)
    (k : String) (h : ¬p.uri = k) :
    groupValue (p :: pairs) k = groupValue pairs k := by
  simp [groupValue, List.filter_cons, h]

theorem firstOccurrences_not_mem_seen :
    ∀ (l seen : List String) (k : String), k ∈ firstOccurrences seen l → k ∉ seen := by
  intro l
  induction l with
  | nil => intro seen k h; simp [firstOccurrences] at h
  | cons u rest ih =>
    intro seen k h
    by_cases hu : u ∈ seen
    · simp only [firstOccurrences, if_pos hu] at h
      exact ih seen k h
    · simp only [firstOccurrences, if_neg hu] at h
      rcases List.mem_cons.mp h with h1 | h1
      · subst h1; exact hu
      · intro hk
        exact ih _ k h1 (List.mem_cons_of_mem _ hk)

theorem firstOccurrences_sub :
    ∀ (l seen : List String) (k : String), k ∈ firstOccurrences seen l → k ∈ l := by
  intro l
  induction l with
  | nil => intro seen k h; simp [firstOccurrences] at h
  | cons u rest ih =>
    intro seen k h
    by_cases hu : u ∈ seen
    · simp only [firstOccurrences, if_pos hu] at h
      exact List.mem_cons_of_mem _ (ih seen k h)
    · simp only [firstOccurrences, if_neg hu] at h
      rcases List.mem_cons.mp h with h1 | h1
      · subst h1; exact List.mem_cons_self _ _
      · exact List.mem_cons_of_mem _ (ih _ k h1)

theorem firstOccurrences_congr :
    ∀ (l s1 s2 : List String), (∀ x, x ∈ s1 ↔ x ∈ s2) →
      firstOccurrences s1 l = firstOccurrences s2 l := by
  intro l
  induction l with
  | nil => intro s1 s2 _; rfl
  | cons u rest ih =>
    intro s1 s2 hs
    by_cases hu : u ∈ s1
    · simp only [firstOccurrences, if_pos hu, if_pos ((hs u).mp hu)]
      exact ih s1 s2 hs
    · have hu2 : u ∉ s2 := fun h2 => hu ((hs u).mpr h2)
      simp only [firstOccurrences, if_neg hu, if_neg hu2]
      rw [ih (u :: s1) (u :: s2) (by intro x; simp [List.mem_cons, hs x])]

theorem groupInsert_mem (acc : List (String × List TextEdit)) (u : String) (e : TextEdit)
    (hmem : u ∈ acc.map Prod.fst) (hnd : (acc.map Prod.fst).Nodup) :
    groupInsert acc u e =
      acc.map fun g => if g.1 = u then (g.1, g.2 ++ [e]) else g := by
  induction acc with
  | nil => simp at hmem
  | cons p rest ih =>
    obtain ⟨k, es⟩ := p
    simp only [List.map_cons, List.nodup_cons] at hnd
    simp only [List.map_cons, List.mem_cons] at hmem
    by_cases hk : k = u
    · subst hk
      have hrest : (rest.map fun g => if g.1 = k then (g.1, g.2 ++ [e]) else g) = rest := by
        have hpt : ∀ g ∈ rest, (if g.1 = k then (g.1, g.2 ++ [e]) else g) = g := by
          intro g hg
          rw [if_neg]
          intro hgu
          have := List.mem_map_of_mem Prod.fst hg
          rw [hgu] at this
          exact hnd.1 this
        exact (List.map_congr_left hpt).trans (List.map_id _)
      simp [groupInsert, hrest]
    · have hmem' : u ∈ rest.map Prod.fst := by
        rcases hmem with h1 | h1
        · exact absurd h1.symm hk
        · exact h1
      simp only [groupInsert, if_neg hk, List.map_cons, ih hmem' hnd.2,
        if_neg (show ¬(k, es).1 = u from hk)]

theorem groupInsert_not_mem (acc : List (String × List TextEdit)) (u : String)
    (e : TextEdit) (h : u ∉ acc.map Prod.fst) :
    groupInsert acc u e = acc ++ [(u, [e])] := by
  induction acc with
  | nil => rfl
  | cons p rest ih =>
    obtain ⟨k, es⟩ := p
    simp only [List.map_cons, List.mem_cons] at h
    push_neg at h
    have hk : ¬(k = u) := fun hk => h.1 hk.symm
    simp [groupInsert, hk, ih h.2]

/-- The grouping fold, characterized: the accumulated groups extended by
the later edits for their keys, followed by the fresh keys in
first-encounter order with all their edits. -/
theorem foldl_groupInsert :
    ∀ (pairs : List DocumentTextEdit) (acc : List (String × List TextEdit)),
      (acc.map Prod.fst).Nodup →
      pairs.foldl (fun a p => groupInsert a p.uri p.text_edit) acc =
        acc.map (extendGroup pairs)
          ++ (firstOccurrences (acc.map Prod.fst)
                (pairs.map DocumentTextEdit.uri)).map (groupOf pairs) := by
  intro pairs
  induction pairs with
  | nil =>
    intro acc _
    have hid : acc.map (extendGroup []) = acc := by
      have hpt : ∀ g ∈ acc, extendGroup [] g = g := by
        intro g _
        obtain ⟨k, es⟩ := g
        simp [extendGroup, groupValue]
      exact (List.map_congr_left hpt).trans (List.map_id _)
    simp [firstOccurrences, hid]
  | cons p rest ih =>
    intro acc hnd
    rw [List.foldl_cons]
    by_cases hmem : p.uri ∈ acc.map Prod.fst
    · rw [groupInsert_mem acc p.uri p.text_edit hmem hnd]
      have hkeys : ((acc.map fun g => if g.1 = p.uri then (g.1, g.2 ++ [p.text_edit]) else g).map
          Prod.fst) = acc.map Prod.fst := by
        rw [List.map_map]
        apply List.map_congr_left
        intro g _
        by_cases hg : g.1 = p.uri
        · simp [hg]
        · simp [hg]
      rw [ih _ (by rw [hkeys]; exact hnd), hkeys, List.map_map]
      simp only [List.map_cons, firstOccurrences, if_pos hmem]
      congr 1
      · apply List.map_congr_left
        intro g _
        by_cases hgu : g.1 = p.uri
        · simp only [Function.comp_apply, if_pos hgu, extendGroup,
            groupValue_cons_pos p rest g.1 hgu.symm]
          simp [List.append_assoc]
        · simp only [Function.comp_apply, if_neg hgu, extendGroup,
            groupValue_cons_neg p rest g.1 (fun hc => hgu hc.symm)]
      · apply List.map_congr_left
        intro k hk
        have hknot : k ∉ acc.map Prod.fst := firstOccurrences_not_mem_seen _ _ _ hk
        have hkne : ¬p.uri = k := fun hc => hknot (hc ▸ hmem)
        simp only [groupOf, groupValue_cons_neg p rest k hkne]
    · rw [groupInsert_not_mem acc p.uri p.text_edit hmem]
      have hkeys2 : (acc ++ [(p.uri, [p.text_edit])]).map Prod.fst =
          acc.map Prod.fst ++ [p.uri] := by
        simp
      have hnd' : (((acc ++ [(p.uri, [p.text_edit])]).map Prod.fst)).Nodup := by
        rw [hkeys2]
        simp [List.nodup_append, hnd, hmem]
      rw [ih _ hnd', hkeys2, List.map_append]
      have hfocongr : firstOccurrences (acc.map Prod.fst ++ [p.uri])
            (rest.map DocumentTextEdit.uri) =
          firstOccurrences (p.uri :: acc.map Prod.fst) (rest.map DocumentTextEdit.uri) :=
        firstOccurrences_congr _ _ _
          (by intro x; simp [List.mem_append, List.mem_cons, or_comm])
      rw [hfocongr]
      simp only [List.map_cons, firstOccurrences, if_neg hmem]
      have haccpart : acc.map (extendGroup rest) = acc.map (extendGroup (p :: rest)) := by
        apply List.map_congr_left
        intro g hg
        have hgne : ¬p.uri = g.1 := by
          intro hc
          apply hmem
          have := List.mem_map_of_mem Prod.fst hg
          rw [← hc] at this
          exact this
        simp only [extendGroup, groupValue_cons_neg p rest g.1 hgne]
      have htailpart : (firstOccurrences (p.uri :: acc.map Prod.fst)
            (rest.map DocumentTextEdit.uri)).map (groupOf rest) =
          (firstOccurrences (p.uri :: acc.map Prod.fst)
            (rest.map DocumentTextEdit.uri)).map (groupOf (p :: rest)) := by
        apply List.map_congr_left
        intro k hk
        have hknot := firstOccurrences_not_mem_seen _ _ _ hk
        have hkne : ¬p.uri = k := fun hc => hknot (hc ▸ List.mem_cons_self p.uri _)
        simp only [groupOf, groupValue_cons_neg p rest k hkne]
      rw [haccpart, htailpart]
      have hhead : extendGroup rest (p.uri, [p.text_edit]) = groupOf (p :: rest) p.uri := by
        simp [extendGroup, groupOf, groupValue_cons_pos p rest p.uri rfl]
      rw [hhead]
      simp [List.append_assoc]

/-- `groupEdits`, characterized: one group per destination URI in
first-encounter order, each carrying that URI's edits in original order. -/
theorem groupEdits_spec (pairs : List DocumentTextEdit) :
    groupEdits pairs =
      (firstOccurrences [] (pairs.map DocumentTextEdit.uri)).map (groupOf pairs) := by
  have := foldl_groupInsert pairs [] (by simp)
  simpa [groupEdits] using this

theorem dictLookup_isSome {α : Type} :
    ∀ (l : List (String × α)) (u : String), u ∈ l.map Prod.fst →
      ∃ v, dictLookup l u = some v := by
  intro l
  induction l with
  | nil => intro u h; simp at h
  | cons p rest ih =>
    intro u h
    obtain ⟨k, w⟩ := p
    cases hr : dictLookup rest u with
    | some v => exact ⟨v, by simp [dictLookup, hr]⟩
    | none =>
      simp only [List.map_cons, List.mem_cons] at h
      rcases h with h | h
      · subst h
        exact ⟨w, by simp [dictLookup, hr]⟩
      · obtain ⟨v, hv⟩ := ih u h
        rw [hv] at hr
        simp at hr

theorem cellByUri_of_mem (m : NotebookCoordinateMapper) (u : String)
    (h : u ∈ m.cells.map TextDocument.uri) :
    ∃ c, m.cellByUri u = some c ∧ c.uri = u := by
  have hkeys : u ∈ ((m.cells.map fun c => (c.uri, c)).map Prod.fst) := by
    rw [List.map_map]
    simpa using h
  obtain ⟨v, hv⟩ := dictLookup_isSome _ u hkeys
  have hmem := dictLookup_mem _ _ _ hv
  rw [List.mem_map] at hmem
  obtain ⟨c, _, hcv⟩ := hmem
  injection hcv with h1 h2
  subst h2
  exact ⟨c, hv, h1⟩

theorem cellPositionScan_uri_mem (lookup : String → Option (Nat × Nat)) :
    ∀ (cs : List TextDocument) (np : Position) (dp : DocumentPosition),
      cellPositionScan lookup cs np = some dp → dp.uri ∈ cs.map TextDocument.uri := by
  intro cs
  induction cs with
  | nil => intro np dp h; simp [cellPositionScan] at h
  | cons c rest ih =>
    intro np dp h
    cases hl : lookup c.uri with
    | none =>
      simp only [cellPositionScan, hl] at h
      exact List.mem_cons_of_mem _ (ih np dp h)
    | some r =>
      simp only [cellPositionScan, hl] at h
      by_cases hcond : r.1 ≤ np.line ∧ np.line < r.2
      · rw [if_pos hcond] at h
        cases h
        simp
      · rw [if_neg hcond] at h
        exact List.mem_cons_of_mem _ (ih np dp h)

theorem cell_range_uri_mem (m : NotebookCoordinateMapper) (r : Range) (loc : Location)
    (h : m.cell_range r = some loc) : loc.uri ∈ m.cells.map TextDocument.uri := by
  cases hs : m.cell_position r.start with
  | none => simp [NotebookCoordinateMapper.cell_range, hs] at h
  | some s =>
    cases he : m.cell_position r.end_ with
    | none => simp [NotebookCoordinateMapper.cell_range, hs, he] at h
    | some e2 =>
      by_cases huri : s.uri = e2.uri
      · simp only [NotebookCoordinateMapper.cell_range, hs, he,
          if_neg (not_not_intro huri)] at h
        cases h
        exact cellPositionScan_uri_mem m.lineRangeOf m.cells r.start s hs
      · simp [NotebookCoordinateMapper.cell_range, hs, he, huri] at h

theorem cell_text_edit_uri_mem (m : NotebookCoordinateMapper) (e : TextEdit)
    (dte : DocumentTextEdit) (h : m.cell_text_edit e = some dte) :
    dte.uri ∈ m.cells.map TextDocument.uri := by
  cases hcr : m.cell_range e.range with
  | none => simp [NotebookCoordinateMapper.cell_text_edit, hcr] at h
  | some loc =>
    simp only [NotebookCoordinateMapper.cell_text_edit, hcr, Option.map_some'] at h
    cases h
    exact cell_range_uri_mem m e.range loc hcr

/-- The per-group emission step of `cell_text_document_edits`, applied to
the finished groups of keys `ks`: when every key is a cell URI, it emits
one `TextDocumentEdit` per key, in order, carrying the key's edits and the
cell's version (0 when the cell has no version). -/
theorem emitGroups_props (m : NotebookCoordinateMapper) (pairs : List DocumentTextEdit) :
    ∀ ks : List String, (∀ k ∈ ks, k ∈ m.cells.map TextDocument.uri) →
      ((((ks.map (groupOf pairs)).filterMap fun g =>
          (m.cellByUri g.1).map fun cell =>
            ({ text_document := { uri := cell.uri, version := versionOrZero cell },
               edits := g.2 } : TextDocumentEdit)).map fun o => o.text_document.uri) = ks)
      ∧ ∀ o ∈ (ks.map (groupOf pairs)).filterMap fun g =>
            (m.cellByUri g.1).map fun cell =>
              ({ text_document := { uri := cell.uri, version := versionOrZero cell },
                 edits := g.2 } : TextDocumentEdit),
          o.edits = groupValue pairs o.text_document.uri
          ∧ ∃ cell, m.cellByUri o.text_document.uri = some cell
              ∧ o.text_document.uri = cell.uri
              ∧ o.text_document.version = versionOrZero cell := by
  intro ks
  induction ks with
  | nil =>
    intro _
    constructor
    · rfl
    · intro o ho
      simp at ho
  | cons k ks ih =>
    intro hall
    obtain ⟨c, hc, hcu⟩ := cellByUri_of_mem m k (hall k (List.mem_cons_self _ _))
    have htail := ih fun k' hk' => hall k' (List.mem_cons_of_mem _ hk')
    simp only [List.map_cons, List.filterMap_cons, groupOf, hc, Option.map_some']
    constructor
    · rw [htail.1, hcu]
    · intro o ho
      rcases List.mem_cons.mp ho with h1 | h1
      · subst h1
        refine ⟨?_, c, ?_, ?_, ?_⟩
        · show groupValue pairs k = groupValue pairs c.uri
          rw [hcu]
        · show m.cellByUri c.uri = some c
          rw [hcu]; exact hc
        · show c.uri = c.uri
          rfl
        · show versionOrZero c = versionOrZero c
          rfl
      · exact htail.2 o h1

/-- The spec's concrete scenario: e1 at notebook line 1 (cell A), e2 at
line 3 (cell B), e3 at line 0 (cell A). -/
def exE1 : TextEdit :=
  { range := { start := ⟨1, 0⟩, end_ := ⟨1, 1⟩ }, newText := "one", annotationId := none }

def exE2 : TextEdit :=
  { range := { start := ⟨3, 0⟩, end_ := ⟨3, 1⟩ }, newText := "two", annotationId := none }

def exE3 : TextEdit :=
  { range := { start := ⟨0, 0⟩, end_ := ⟨0, 1⟩ }, newText := "three", annotationId := none }

def exTde : TextDocumentEdit :=
  { text_document := { uri := "nb:doc", version := 1 }, edits := [exE1, exE2, exE3] }

/-- Expected output for cell A: [e1, e3] in that order, at A's version 7
(cell A starts at notebook line 0, so the cell-space ranges coincide). -/
def exOutA : TextDocumentEdit :=
  { text_document := { uri := "cell:a", version := 7 }, edits := [exE1, exE3] }

/-- Expected output for cell B: [e2] rebased to cell space, with version
defaulting to 0 because B has no version. -/
def exOutB : TextDocumentEdit :=
  { text_document := { uri := "cell:b", version := 0 },
    edits := [{ range := { start := ⟨0, 0⟩, end_ := ⟨0, 1⟩ }, newText := "two",
                annotationId := none }] }

/-- C2: for a `TextDocumentEdit` at the notebook's URI, the surviving
converted edits are grouped by destination cell — output cells in
first-encounter order, each group's edits in original relative order, each
output stamped with the destination cell's version (0 when the cell has no
version) — and on the spec's concrete scenario the result is exactly
A-with-[e1, e3] then B-with-[e2]. -/
theorem C2_edit_splitting (m : NotebookCoordinateMapper) (tde : TextDocumentEdit)
    (h : tde.text_document.uri = m.document.uri) :
    (((m.cell_text_document_edits tde).map fun o => o.text_document.uri) =
      firstOccurrences [] ((tde.edits.filterMap m.cell_text_edit).map DocumentTextEdit.uri))
    ∧ (∀ o ∈ m.cell_text_document_edits tde,
        o.edits = groupValue (tde.edits.filterMap m.cell_text_edit) o.text_document.uri)
    ∧ (∀ o ∈ m.cell_text_document_edits tde,
        ∃ cell, m.cellByUri o.text_document.uri = some cell
          ∧ o.text_document.uri = cell.uri
          ∧ o.text_document.version = versionOrZero cell)
    ∧ exMapper.cell_text_document_edits exTde = [exOutA, exOutB] := by
  have hbranch : m.cell_text_document_edits tde =
      ((firstOccurrences []
          ((tde.edits.filterMap m.cell_text_edit).map DocumentTextEdit.uri)).map
        (groupOf (tde.edits.filterMap m.cell_text_edit))).filterMap fun g =>
          (m.cellByUri g.1).map fun cell =>
            ({ text_document := { uri := cell.uri, version := versionOrZero cell },
               edits := g.2 } : TextDocumentEdit) := by
    unfold NotebookCoordinateMapper.cell_text_document_edits
    rw [if_neg (not_not_intro h), groupEdits_spec]
  have hall : ∀ k ∈ firstOccurrences []
      ((tde.edits.filterMap m.cell_text_edit).map DocumentTextEdit.uri),
      k ∈ m.cells.map TextDocument.uri := by
    intro k hk
    have hkp := firstOccurrences_sub _ _ _ hk
    rw [List.mem_map] at hkp
    obtain ⟨p, hp, hpu⟩ := hkp
    rw [List.mem_filterMap] at hp
    obtain ⟨e, _, hce⟩ := hp
    rw [← hpu]
    exact cell_text_edit_uri_mem m e p hce
  have hprops := emitGroups_props m (tde.edits.filterMap m.cell_text_edit)
    (firstOccurrences [] ((tde.edits.filterMap m.cell_text_edit).map DocumentTextEdit.uri))
    hall
  refine ⟨?_, ?_, ?_, by decide⟩
  · rw [hbranch]
    exact hprops.1
  · intro o ho
    rw [hbranch] at ho
    exact (hprops.2 o ho).1
  · intro o ho
    rw [hbranch] at ho
    obtain ⟨_, cell, h1, h2, h3⟩ := hprops.2 o ho
    exact ⟨cell, h1, h2, h3⟩

theorem C2_edit_splitting_witness :
    (exMapper.cell_text_document_edits exTde).map (fun o => o.text_document.uri) =
      ["cell:a", "cell:b"] := by
  rw [(C2_edit_splitting exMapper exTde (by decide)).1]
  decide

end NbUtils
